import Mathlib

/-!
Verification development for the spikeflow model core
(`spikeflow/core/model.py`): the composite compile algorithm
(`CompositeLayer._compile`) and the time-stepping run loop
(`BPNNModel.run_time` / `continue_run_time`).

The compile pass is embedded as a function producing an explicit event
trace (the sequence of side-effecting calls the Python code performs, in
program order) together with the data it computes: each neuron layer's
accumulated input signals, each connection's bound input, and the
composite's output.  The run loop is embedded as a trace-producing
function parameterized over an abstract execution engine (the external
tensor engine is a black box per the design).
-/

namespace Spikeflow

/-- A neuron layer as the composite compile algorithm sees it: an object
identity (`id`, standing for Python object identity, used by
`list.index`), a `name` (key in the `_ops` dictionary), and declared
signal widths. Its numeric internals are external collaborators. -/
structure NeuronLayer where
  id : Nat
  name : String
  input_n : Nat
  output_n : Nat
deriving DecidableEq, Repr, Inhabited

/-- A connection layer: references its source and target neuron layers by
object identity (`from_layer` / `to_layer`). -/
structure ConnectionLayer where
  name : String
  from_layer : Nat
  to_layer : Nat
deriving DecidableEq, Repr

/-- A learning rule; only its name matters to the core. -/
structure LearningRule where
  name : String
deriving DecidableEq, Repr

/-- `CompositeLayer`: ordered neuron layers, connections, learning rules. -/
structure CompositeLayer where
  name : String
  neuron_layers : List NeuronLayer
  connections : List ConnectionLayer
  learning_rules : List LearningRule
deriving DecidableEq, Repr

/-- Abstract signals flowing through the compile pass: the composite's own
input, a neuron layer's output (by layer object id), or a connection's
output sub-node (by connection position). -/
inductive Signal where
  | compositeInput
  | layerOutput (layerId : Nat)
  | connOutput (connIdx : Nat)
deriving DecidableEq, Repr

/-- The side-effecting calls `CompositeLayer._compile` performs, in program
order: constructing a connection's output sub-node, `add_input` on a neuron
layer (by position in the sequence), compiling a neuron layer, entering the
`tf.control_dependencies` barrier, binding a connection's input, compiling a
connection, compiling a learning rule, and setting the composite output. -/
inductive Event where
  | compileOutputNode (connIdx : Nat)
  | addInput (layerPos : Nat) (sig : Signal)
  | compileNeuronLayer (layerPos : Nat)
  | barrierBegin
  | bindConnInput (connIdx : Nat) (sig : Signal)
  | compileConnection (connIdx : Nat)
  | compileLearningRule (rulePos : Nat)
  | setCompositeOutput (sig : Signal)
deriving DecidableEq, Repr

/-- Python exceptions raised by the compile pass (both are `ValueError`,
distinguished by message). -/
inductive PyError where
  | valueError (msg : String)
deriving DecidableEq, Repr

deriving instance DecidableEq for Except

/-- The message of the configuration error raised for zero neuron layers. -/
def configErrorMsg : String :=
  "Composites and models must contain at least one neuron layer."

/-- The message of the `ValueError` that Python's `list.index` raises when
the element is not found. -/
def lookupErrorMsg : String := "is not in list"

/-- `self.neuron_layers.index(connection.to_layer)`: first position of the
layer with the given object identity; `ValueError` when absent. -/
def pyListIndex (layers : List NeuronLayer) (targetId : Nat) : Except PyError Nat :=
  match layers.findIdx? (fun l => l.id == targetId) with
  | some i => .ok i
  | none => .error (.valueError lookupErrorMsg)

/-- `connection_tos.get(i, [])`: lookup in the index-keyed dictionary of
queued connection outputs, defaulting to the empty list. -/
def dictGet : List (Nat × List Signal) → Nat → List Signal
  | [], _ => []
  | (k, vs) :: rest, key => if k = key then vs else dictGet rest key

/-- `connection_tos.setdefault(to_i, []).append(x)`: append to the list at
the key, creating it when absent (insertion at the end, as Python dicts
order keys by first insertion). -/
def dictAppend : List (Nat × List Signal) → Nat → Signal → List (Nat × List Signal)
  | [], key, v => [(key, [v])]
  | (k, vs) :: rest, key, v =>
    if k = key then (k, vs ++ [v]) :: rest
    else (k, vs) :: dictAppend rest key v

/-- The first loop of `_compile` (lines 49-53): for each connection, build
its output sub-node, look up its `to_layer`'s index, and queue its output
under that index.  Returns the event trace and, on success, the final
`connection_tos` dictionary; a failed index lookup aborts with the
`ValueError` after the sub-node construction already happened. -/
def connectionTosLoop (layers : List NeuronLayer) :
    Nat → List ConnectionLayer → List (Nat × List Signal) →
    List Event × Except PyError (List (Nat × List Signal))
  | _, [], tos => ([], .ok tos)
  | ci, conn :: rest, tos =>
    match pyListIndex layers conn.to_layer with
    | .error e => ([Event.compileOutputNode ci], .error e)
    | .ok to_i =>
      let (t, r) :=
        connectionTosLoop layers (ci + 1) rest (dictAppend tos to_i (Signal.connOutput ci))
      (Event.compileOutputNode ci :: t, r)

/-- The barrier block of `_compile` (lines 68-72): for each connection,
bind its input to `from_layer.output` and compile it. -/
def connBindEvents : Nat → List ConnectionLayer → List Event
  | _, [] => []
  | ci, conn :: rest =>
    Event.bindConnInput ci (Signal.layerOutput conn.from_layer) ::
    Event.compileConnection ci :: connBindEvents (ci + 1) rest

/-- Data computed by a successful `_compile`: each neuron layer's
accumulated inputs (in `add_input` order, by position), each connection's
bound input, and the composite's `output`. -/
structure CompileResult where
  layerInputs : List (List Signal)
  connInputs : List (Option Signal)
  output : Signal
deriving DecidableEq, Repr

/-- Shallow embedding of `CompositeLayer._compile` (model.py lines 43-79).
Returns the event trace performed (in program order, up to the point of an
exception) and either the raised `ValueError` or the compile result. -/
def CompositeLayer.pyCompile (c : CompositeLayer) :
    List Event × Except PyError CompileResult :=
  if c.neuron_layers.length = 0 then
    ([], .error (.valueError configErrorMsg))
  else
    match connectionTosLoop c.neuron_layers 0 c.connections [] with
    | (t, .error e) => (t, .error e)
    | (t, .ok tos) =>
      let n := c.neuron_layers.length
      let inputEvents := Event.addInput 0 Signal.compositeInput ::
        (List.range n).flatMap (fun i => (dictGet tos i).map (Event.addInput i))
      let compileEvents := (List.range n).map Event.compileNeuronLayer
      let barrierEvents := Event.barrierBegin :: connBindEvents 0 c.connections
      let ruleEvents := (List.range c.learning_rules.length).map Event.compileLearningRule
      let lastId := (c.neuron_layers.getLastD default).id
      (t ++ inputEvents ++ compileEvents ++ barrierEvents ++ ruleEvents ++
        [Event.setCompositeOutput (Signal.layerOutput lastId)],
       .ok { layerInputs := (List.range n).map (fun i =>
               (if i = 0 then [Signal.compositeInput] else []) ++ dictGet tos i),
             connInputs := c.connections.map
               (fun conn => some (Signal.layerOutput conn.from_layer)),
             output := Signal.layerOutput lastId })

/-- `CompositeLayer.input_n`: the first neuron layer's `input_n`
(`none` models the `IndexError` on an empty sequence). -/
def CompositeLayer.pyInputN (c : CompositeLayer) : Option Nat :=
  c.neuron_layers.head?.map (fun l => l.input_n)

/-- `CompositeLayer.output_n`: the last neuron layer's `output_n`. -/
def CompositeLayer.pyOutputN (c : CompositeLayer) : Option Nat :=
  c.neuron_layers.getLast?.map (fun l => l.output_n)

/-- The names of all computation layers in `_ops` order:
`neuron_layers + connections + learning_rules`. -/
def CompositeLayer.opsNames (c : CompositeLayer) : List String :=
  c.neuron_layers.map (fun l => l.name) ++ c.connections.map (fun l => l.name) ++
    c.learning_rules.map (fun l => l.name)

/-- The key list of the dictionary `_ops` builds: names in order of first
occurrence (Python dict comprehension semantics). -/
def CompositeLayer.opsKeys (c : CompositeLayer) : List String :=
  c.opsNames.foldl (fun acc nm => if acc.contains nm then acc else acc ++ [nm]) []

/-- `allBefore t p q`: every `p`-event in the trace `t` occurs strictly
before every `q`-event, stated as a split of `t` into a `q`-free prefix and
a `p`-free suffix. -/
def allBefore {α : Type} (t : List α) (p q : α → Bool) : Prop :=
  ∃ t₁ t₂, t = t₁ ++ t₂ ∧ (∀ a ∈ t₁, q a = false) ∧ (∀ b ∈ t₂, p b = false)

/-- Recognizer for neuron-layer compile events. -/
def Event.isCompileNeuronLayer : Event → Bool
  | .compileNeuronLayer _ => true
  | _ => false

/-! ### The run loop (`BPNNModel.run_time` / `continue_run_time`)

The external tensor engine is a black box: the design treats it as
"build a node graph, run it, feed inputs, read outputs".  We model the
values it exchanges (`Val`, a Python object that is either a raw data
array or a `collections.Mapping`), the per-session variable state `V`,
and an `Engine` oracle for `sess.run` over the compiled graph. -/

/-- A Python value fed by a data generator: either a raw data array
(abstracted to a tag) or a dictionary (a `collections.Mapping`), which
`run_time` detects with `isinstance` and feeds verbatim. -/
inductive Val where
  | arr (v : Nat)
  | dict (entries : List (String × Val))

/-- `isinstance(data, collections.Mapping)`. -/
def Val.isMapping : Val → Bool
  | .dict _ => true
  | _ => false

/-- The name of the model's input placeholder
(`tf.placeholder(tf.float32, shape=self.input_shape, name='I')`). -/
def inputPlaceholderKey : String := "I"

/-- The external execution engine for one compiled graph: the variable
state a `tf.global_variables_initializer().run()` establishes, and the
effect of one `sess.run` over a feed dictionary — a new variable state
plus a per-runnable-key result, or a raised exception (e.g. a shape
mismatch). -/
structure Engine (V : Type) where
  initVals : V
  run : V → List (String × Val) → Except String (V × (String → Val))

/-- A per-step callback: receives the step index, the live session (its
variable state, which it may change, e.g. by calling `learn`), and the
results mapping; it may raise. -/
def Callback (V : Type) : Type :=
  Nat → V → List (String × Val) → Except String V

/-- Observable events of a run: session open, global-variable
initialization, pulling frame `i` from the generator, completing the
graph evaluation of step `i` with a given feed dictionary, invoking the
callback for step `i` with a given results mapping, and session release
(exit of the `with` block). -/
inductive RunEvent where
  | openSession
  | initVariables
  | pullFrame (i : Nat)
  | evalGraph (i : Nat) (feed : List (String × Val))
  | callbackCall (i : Nat) (results : List (String × Val))
  | closeSession

/-- Recognizer for `initVariables`. -/
def RunEvent.isInitVars : RunEvent → Bool
  | .initVariables => true
  | _ => false

/-- Recognizer for frame pulls. -/
def RunEvent.isPull : RunEvent → Bool
  | .pullFrame _ => true
  | _ => false

/-- The payload-free schedule tag of a run event, used to state ordering
and multiplicity of the per-step schedule. -/
inductive StepTag where
  | openTag
  | initTag
  | pullTag (i : Nat)
  | evalTag (i : Nat)
  | cbTag (i : Nat)
  | closeTag
deriving DecidableEq, Repr

/-- Project a run event to its schedule tag. -/
def RunEvent.tag : RunEvent → StepTag
  | .openSession => .openTag
  | .initVariables => .initTag
  | .pullFrame i => .pullTag i
  | .evalGraph i _ => .evalTag i
  | .callbackCall i _ => .cbTag i
  | .closeSession => .closeTag

/-- The feed dictionary `run_time` builds for one frame (model.py lines
169-173): a `Mapping` is fed directly, anything else becomes the value of
the model's single input placeholder. -/
def runTimeFeed (data : Val) : List (String × Val) :=
  match data with
  | .dict entries => entries
  | d => [(inputPlaceholderKey, d)]

/-- The body of the `for i, data in enumerate(data_generator)` loop of
`run_time` (model.py lines 166-176), producing the event trace and the
loop's outcome.  An engine exception aborts after the pull; a callback
exception aborts after the callback invocation; both propagate. -/
def runTimeLoop {V : Type} (e : Engine V) (keys : List String) (cb : Callback V) :
    Nat → V → List Val → List RunEvent × Except String Unit
  | _, _, [] => ([], .ok ())
  | i, v, data :: rest =>
    let feed := runTimeFeed data
    match e.run v feed with
    | .error msg => ([RunEvent.pullFrame i], .error msg)
    | .ok (v2, out) =>
      let results := keys.map (fun k => (k, out k))
      match cb i v2 results with
      | .error msg =>
        ([RunEvent.pullFrame i, RunEvent.evalGraph i feed,
          RunEvent.callbackCall i results], .error msg)
      | .ok v3 =>
        let (t, r) := runTimeLoop e keys cb (i + 1) v3 rest
        (RunEvent.pullFrame i :: RunEvent.evalGraph i feed ::
          RunEvent.callbackCall i results :: t, r)

/-- The loop of `continue_run_time` (model.py lines 197-199): identical
except that every frame is fed as the input placeholder's value, with no
`Mapping` branch. -/
def continueRunTimeLoop {V : Type} (e : Engine V) (keys : List String)
    (cb : Callback V) :
    Nat → V → List Val → List RunEvent × Except String Unit
  | _, _, [] => ([], .ok ())
  | i, v, data :: rest =>
    let feed := [(inputPlaceholderKey, data)]
    match e.run v feed with
    | .error msg => ([RunEvent.pullFrame i], .error msg)
    | .ok (v2, out) =>
      let results := keys.map (fun k => (k, out k))
      match cb i v2 results with
      | .error msg =>
        ([RunEvent.pullFrame i, RunEvent.evalGraph i feed,
          RunEvent.callbackCall i results], .error msg)
      | .ok v3 =>
        let (t, r) := continueRunTimeLoop e keys cb (i + 1) v3 rest
        (RunEvent.pullFrame i :: RunEvent.evalGraph i feed ::
          RunEvent.callbackCall i results :: t, r)

/-- The top-level model: the composite plus its input shape. -/
structure BPNNModel where
  top : CompositeLayer
  input_shape : List Nat
deriving DecidableEq, Repr

/-- Shallow embedding of `BPNNModel.run_time` (model.py lines 137-176).
`vPrev` is whatever variable state would otherwise carry over into the
session (e.g. weights a previous run's `learn` calls produced);
`tf.global_variables_initializer().run()` replaces it with
`e.initVals` before the first frame is pulled.  The `with tf.Session`
block opens the session first and releases it on every exit path. -/
def BPNNModel.run_time {V : Type} (m : BPNNModel) (e : Engine V)
    (frames : List Val) (cb : Callback V) (_vPrev : V) :
    List RunEvent × Except String Unit :=
  let keys := m.top.opsKeys
  let (t, r) := runTimeLoop e keys cb 0 e.initVals frames
  (RunEvent.openSession :: RunEvent.initVariables :: (t ++ [RunEvent.closeSession]), r)

/-- Shallow embedding of `BPNNModel.continue_run_time` (model.py lines
193-199). -/
def BPNNModel.continue_run_time {V : Type} (m : BPNNModel) (e : Engine V)
    (frames : List Val) (cb : Callback V) (_vPrev : V) :
    List RunEvent × Except String Unit :=
  let keys := m.top.opsKeys
  let (t, r) := continueRunTimeLoop e keys cb 0 e.initVals frames
  (RunEvent.openSession :: RunEvent.initVariables :: (t ++ [RunEvent.closeSession]), r)

/-! ### Concrete instances used by the witnesses -/

/-- Witness layer `A`. -/
def layerA : NeuronLayer := ⟨0, "A", 4, 4⟩

/-- Witness layer `B`. -/
def layerB : NeuronLayer := ⟨1, "B", 4, 6⟩

/-- Witness connection `A → B`. -/
def connectionAB : ConnectionLayer := ⟨"c0", 0, 1⟩

/-- Witness composite with the linear chain `A → c0 → B` and one rule. -/
def chainComposite : CompositeLayer :=
  ⟨"top", [layerA, layerB], [connectionAB], [⟨"r0"⟩]⟩

/-- Witness composite with zero neuron layers but one connection. -/
def emptyComposite : CompositeLayer := ⟨"top", [], [⟨"c0", 0, 1⟩], []⟩

/-- Witness composite whose single connection targets a layer id (7)
absent from the neuron-layer sequence. -/
def badTargetComposite : CompositeLayer := ⟨"top", [layerA], [⟨"c0", 0, 7⟩], []⟩

/-- The compile result of `chainComposite` (checked by evaluation in the
witnesses). -/
def chainCompileResult : CompileResult :=
  ⟨[[Signal.compositeInput], [Signal.connOutput 0]],
   [some (Signal.layerOutput 0)], Signal.layerOutput 1⟩

/-- Witness model wrapping `chainComposite`. -/
def chainModel : BPNNModel := ⟨chainComposite, [1, 4]⟩

/-- Witness engine over variable state `Nat`: counts evaluations and
returns `arr 0` for every runnable. -/
def countingEngine : Engine Nat :=
  ⟨0, fun v _ => .ok (v + 1, fun _ => Val.arr 0)⟩

/-- Witness engine that raises on every evaluation. -/
def failingEngine : Engine Nat :=
  ⟨0, fun _ _ => .error "shape mismatch"⟩

/-- Witness callback that never raises. -/
def okCallback : Callback Nat := fun _ v _ => .ok v

/-- Witness callback that raises at every step. -/
def raisingCallback : Callback Nat := fun _ _ _ => .error "user error"

/-- Witness frames: two raw arrays. -/
def rawFrames : List Val := [Val.arr 10, Val.arr 20]

/-- Witness frames containing a full feed mapping as the second frame. -/
def mixedFrames : List Val :=
  [Val.arr 10, Val.dict [("W", Val.arr 3)], Val.arr 20]

/-! ## Theorems -/

/-- The positional meaning of `allBefore`: any `p`-event's index is
strictly below any `q`-event's index. -/
theorem allBefore_lt {α : Type} {t : List α} {p q : α → Bool}
    (h : allBefore t p q) {i j : Nat} {a b : α}
    (ha : t[i]? = some a) (hb : t[j]? = some b)
    (hpa : p a = true) (hqb : q b = true) : i < j := by
  obtain ⟨t₁, t₂, rfl, hq, hp⟩ := h
  by_cases hi : i < t₁.length
  · by_cases hj : j < t₁.length
    · exfalso
      rw [List.getElem?_append_left hj] at hb
      exact absurd (hq b (List.getElem?_mem hb)) (by simp [hqb])
    · omega
  · exfalso
    rw [List.getElem?_append_right (by omega)] at ha
    exact absurd (hp a (List.getElem?_mem ha)) (by simp [hpa])

/-! ### Lemmas about the `connection_tos` loop -/

theorem dictGet_dictAppend (d : List (Nat × List Signal)) (k key : Nat) (v : Signal) :
    dictGet (dictAppend d k v) key =
      if k = key then dictGet d key ++ [v] else dictGet d key := by
  induction d with
  | nil =>
    by_cases h : k = key <;> simp [dictAppend, dictGet, h]
  | cons p rest ih =>
    obtain ⟨k', vs⟩ := p
    by_cases h1 : k' = k
    · subst h1
      by_cases h2 : k' = key <;> simp [dictAppend, dictGet, h2]
    · by_cases h2 : k' = key
      · subst h2
        have hk : k ≠ k' := fun h => h1 h.symm
        simp [dictAppend, dictGet, h1, hk]
      · simp [dictAppend, dictGet, h1, h2, ih]

theorem connectionTosLoop_ok_trace {layers : List NeuronLayer} :
    ∀ {conns : List ConnectionLayer} {ci : Nat} {tos tos' : List (Nat × List Signal)}
      {t : List Event},
      connectionTosLoop layers ci conns tos = (t, .ok tos') →
      t = (List.range' ci conns.length).map Event.compileOutputNode := by
  intro conns
  induction conns with
  | nil =>
    intro ci tos tos' t h
    simp [connectionTosLoop] at h
    simp [h.1.symm]
  | cons c0 rest ih =>
    intro ci tos tos' t h
    rcases hidx : pyListIndex layers c0.to_layer with e | to_i
    · simp [connectionTosLoop, hidx] at h
    · rcases hrec : connectionTosLoop layers (ci + 1) rest
        (dictAppend tos to_i (Signal.connOutput ci)) with ⟨t', r'⟩
      simp [connectionTosLoop, hidx, hrec] at h
      obtain ⟨ht, hr⟩ := h
      cases r' with
      | error e => simp at hr
      | ok tos2 =>
        simp at hr
        subst hr
        rw [← ht, List.length_cons, List.range'_succ, List.map_cons, ih hrec]

theorem connectionTosLoop_dictGet_mono {layers : List NeuronLayer} :
    ∀ {conns : List ConnectionLayer} {ci : Nat} {tos tos' : List (Nat × List Signal)}
      {t : List Event},
      connectionTosLoop layers ci conns tos = (t, .ok tos') →
      ∀ key, ∃ suf, dictGet tos' key = dictGet tos key ++ suf := by
  intro conns
  induction conns with
  | nil =>
    intro ci tos tos' t h key
    simp [connectionTosLoop] at h
    exact ⟨[], by simp [h.2]⟩
  | cons c0 rest ih =>
    intro ci tos tos' t h key
    rcases hidx : pyListIndex layers c0.to_layer with e | to_i
    · simp [connectionTosLoop, hidx] at h
    · rcases hrec : connectionTosLoop layers (ci + 1) rest
        (dictAppend tos to_i (Signal.connOutput ci)) with ⟨t', r'⟩
      simp [connectionTosLoop, hidx, hrec] at h
      cases r' with
      | error e => simp at h
      | ok tos2 =>
        obtain ⟨suf, hsuf⟩ := ih hrec key
        simp at h
        rw [h.2] at hsuf
        rw [hsuf, dictGet_dictAppend]
        by_cases hk : to_i = key
        · exact ⟨[Signal.connOutput ci] ++ suf, by simp [hk]⟩
        · exact ⟨suf, by simp [hk]⟩

theorem connectionTosLoop_mem {layers : List NeuronLayer} :
    ∀ {conns : List ConnectionLayer} {ci : Nat} {tos tos' : List (Nat × List Signal)}
      {t : List Event},
      connectionTosLoop layers ci conns tos = (t, .ok tos') →
      ∀ {k : Nat} {conn : ConnectionLayer} {to_i : Nat},
        conns[k]? = some conn →
        pyListIndex layers conn.to_layer = .ok to_i →
        Signal.connOutput (ci + k) ∈ dictGet tos' to_i := by
  intro conns
  induction conns with
  | nil =>
    intro ci tos tos' t h k conn to_i hk
    simp at hk
  | cons c0 rest ih =>
    intro ci tos tos' t h k conn to_i hk hto
    rcases hidx : pyListIndex layers c0.to_layer with e | to_i0
    · simp [connectionTosLoop, hidx] at h
    · rcases hrec : connectionTosLoop layers (ci + 1) rest
        (dictAppend tos to_i0 (Signal.connOutput ci)) with ⟨t', r'⟩
      simp [connectionTosLoop, hidx, hrec] at h
      cases r' with
      | error e => simp at h
      | ok tos2 =>
        simp at h
        cases k with
        | zero =>
          simp at hk
          subst hk
          rw [hto] at hidx
          have hto_i : to_i0 = to_i := by
            cases hidx; rfl
          subst hto_i
          obtain ⟨suf, hsuf⟩ := connectionTosLoop_dictGet_mono hrec to_i0
          rw [h.2] at hsuf
          rw [hsuf, dictGet_dictAppend]
          simp
        | succ k' =>
          simp at hk
          have := ih hrec hk hto
          rw [h.2] at this
          have harith : ci + 1 + k' = ci + (k' + 1) := by omega
          rwa [harith] at this

theorem connectionTosLoop_signals {layers : List NeuronLayer} :
    ∀ {conns : List ConnectionLayer} {ci : Nat} {tos tos' : List (Nat × List Signal)}
      {t : List Event},
      connectionTosLoop layers ci conns tos = (t, .ok tos') →
      ∀ {key : Nat} {s : Signal}, s ∈ dictGet tos' key →
        s ∈ dictGet tos key ∨ ∃ j, s = Signal.connOutput j := by
  intro conns
  induction conns with
  | nil =>
    intro ci tos tos' t h key s hs
    simp [connectionTosLoop] at h
    rw [← h.2] at hs
    exact .inl hs
  | cons c0 rest ih =>
    intro ci tos tos' t h key s hs
    rcases hidx : pyListIndex layers c0.to_layer with e | to_i
    · simp [connectionTosLoop, hidx] at h
    · rcases hrec : connectionTosLoop layers (ci + 1) rest
        (dictAppend tos to_i (Signal.connOutput ci)) with ⟨t', r'⟩
      simp [connectionTosLoop, hidx, hrec] at h
      cases r' with
      | error e => simp at h
      | ok tos2 =>
        simp at h
        rw [← h.2] at hs
        rcases ih hrec hs with hmem | hshape
        · rw [dictGet_dictAppend] at hmem
          by_cases hk : to_i = key

          · rw [if_pos hk] at hmem
            rcases List.mem_append.mp hmem with hl | hr
            · exact .inl hl
            · simp at hr
              exact .inr ⟨ci, hr⟩
          · rw [if_neg hk] at hmem
            exact .inl hmem
        · exact .inr hshape

theorem connectionTosLoop_err {layers : List NeuronLayer} :
    ∀ {conns : List ConnectionLayer} (ci : Nat) (tos : List (Nat × List Signal)),
      (∃ conn ∈ conns, ∀ l ∈ layers, l.id ≠ conn.to_layer) →
      (connectionTosLoop layers ci conns tos).2 =
        .error (.valueError lookupErrorMsg) := by
  intro conns
  induction conns with
  | nil =>
    intro ci tos h
    simp at h
  | cons c0 rest ih =>
    intro ci tos h
    rcases hidx : pyListIndex layers c0.to_layer with e | to_i
    · have he : e = .valueError lookupErrorMsg := by
        unfold pyListIndex at hidx
        rcases hfind : layers.findIdx? (fun l => l.id == c0.to_layer) with _ | i <;>
          rw [hfind] at hidx <;> simp at hidx
        exact hidx.symm
      subst he
      simp [connectionTosLoop, hidx]
    · obtain ⟨conn, hmem, hbad⟩ := h
      have hconn_rest : conn ∈ rest := by
        rcases List.mem_cons.mp hmem with rfl | hr
        · exfalso
          unfold pyListIndex at hidx
          rcases hfind : layers.findIdx? (fun l => l.id == conn.to_layer) with _ | i <;>
            rw [hfind] at hidx
          · simp at hidx
          · have := List.findIdx?_eq_some_iff_findIdx_eq.mp hfind
            obtain ⟨hlt, -⟩ := this
            have hget := List.findIdx?_eq_some_iff_getElem.mp hfind
            obtain ⟨hlt', hp, -⟩ := hget
            exact absurd (of_decide_eq_true (by simpa using hp))
              (hbad _ (List.getElem_mem hlt'))
        · exact hr
      rcases hrec : connectionTosLoop layers (ci + 1) rest
        (dictAppend tos to_i (Signal.connOutput ci)) with ⟨t', r'⟩
      have := ih (ci + 1)
        (dictAppend tos to_i (Signal.connOutput ci)) ⟨conn, hconn_rest, hbad⟩
      rw [hrec] at this
      simp [connectionTosLoop, hidx, hrec]
      exact this

/-! ### Structure of a successful compile -/

/-- The exact shape of the trace and result of a successful `_compile`,
in terms of the `connection_tos` dictionary computed by the first loop. -/
theorem pyCompile_ok_spec {c : CompositeLayer} {res : CompileResult}
    (hok : (c.pyCompile).2 = .ok res) :
    ∃ tos : List (Nat × List Signal),
      connectionTosLoop c.neuron_layers 0 c.connections [] =
        ((List.range' 0 c.connections.length).map Event.compileOutputNode, .ok tos) ∧
      c.neuron_layers.length ≠ 0 ∧
      (c.pyCompile).1 =
        (List.range' 0 c.connections.length).map Event.compileOutputNode ++
        (Event.addInput 0 Signal.compositeInput ::
          (List.range c.neuron_layers.length).flatMap
            (fun i => (dictGet tos i).map (Event.addInput i))) ++
        (List.range c.neuron_layers.length).map Event.compileNeuronLayer ++
        (Event.barrierBegin :: connBindEvents 0 c.connections) ++
        (List.range c.learning_rules.length).map Event.compileLearningRule ++
        [Event.setCompositeOutput
          (Signal.layerOutput (c.neuron_layers.getLastD default).id)] ∧
      res = { layerInputs := (List.range c.neuron_layers.length).map (fun i =>
                (if i = 0 then [Signal.compositeInput] else []) ++ dictGet tos i),
              connInputs := c.connections.map
                (fun conn => some (Signal.layerOutput conn.from_layer)),
              output := Signal.layerOutput (c.neuron_layers.getLastD default).id } := by
  by_cases h0 : c.neuron_layers.length = 0
  · simp [CompositeLayer.pyCompile, h0] at hok
  · rcases hloop : connectionTosLoop c.neuron_layers 0 c.connections [] with ⟨t0, r⟩
    cases r with
    | error e =>
      exfalso
      simp [CompositeLayer.pyCompile, h0, hloop] at hok
    | ok tos =>
      have ht0 := connectionTosLoop_ok_trace hloop
      refine ⟨tos, by rw [ht0], h0, ?_, ?_⟩
      · simp [CompositeLayer.pyCompile, h0, hloop, ht0]
      · have := hok
        simp [CompositeLayer.pyCompile, h0, hloop] at this
        simpa [List.getLastD_eq_getLast?] using this.symm

/-! ### Shapes of trace segments -/

theorem mem_connBindEvents {e : Event} :
    ∀ {conns : List ConnectionLayer} {ci : Nat}, e ∈ connBindEvents ci conns →
      (∃ j s, e = .bindConnInput j s) ∨ ∃ j, e = .compileConnection j := by
  intro conns
  induction conns with
  | nil => intro ci h; simp [connBindEvents] at h
  | cons c0 rest ih =>
    intro ci h
    simp [connBindEvents] at h
    rcases h with h | h | h
    · exact .inl ⟨ci, _, h⟩
    · exact .inr ⟨ci, h⟩
    · exact ih h

theorem connBindEvents_mem {conns : List ConnectionLayer} :
    ∀ (ci : Nat) {k : Nat} {conn : ConnectionLayer}, conns[k]? = some conn →
      Event.bindConnInput (ci + k) (Signal.layerOutput conn.from_layer) ∈
        connBindEvents ci conns ∧
      Event.compileConnection (ci + k) ∈ connBindEvents ci conns := by
  induction conns with
  | nil => intro ci k conn h; simp at h
  | cons c0 rest ih =>
    intro ci k conn h
    cases k with
    | zero =>
      simp at h
      subst h
      simp [connBindEvents]
    | succ k' =>
      simp at h
      have := ih (ci + 1) h
      have harith : ci + 1 + k' = ci + (k' + 1) := by omega
      rw [harith] at this
      exact ⟨by simp [connBindEvents, this.1], by simp [connBindEvents, this.2]⟩

theorem beq_false_of_ne {α : Type} [DecidableEq α] {a b : α} (h : a ≠ b) :
    (a == b) = false := by
  simpa [beq_eq_false_iff_ne] using h

/-! ### Claims about the compile pass -/

/-- **C3**: for every composite with zero neuron layers, compiling raises
the configuration `ValueError`, with an empty event trace — no other
compilation work (in particular no connection sub-node construction)
happens first. -/
theorem compile_empty_raises_config_error (c : CompositeLayer)
    (h : c.neuron_layers = []) :
    c.pyCompile = ([], .error (.valueError configErrorMsg)) := by
  simp [CompositeLayer.pyCompile, h]

/-- Witness for `compile_empty_raises_config_error` at `emptyComposite`. -/
theorem compile_empty_raises_config_error_witness :
    emptyComposite.neuron_layers = [] ∧
    emptyComposite.pyCompile = ([], .error (.valueError configErrorMsg)) :=
  ⟨rfl, compile_empty_raises_config_error emptyComposite rfl⟩

/-- **C4 counterexample**: `emptyComposite` contains a connection whose
`to_layer` is not a member of its (empty) neuron-layer sequence, yet
compiling raises the zero-neuron-layers configuration error, not the
lookup (not-found) error: the claim fails for composites with zero
neuron layers. -/
theorem connection_lookup_error_counterexample :
    (∃ conn ∈ emptyComposite.connections,
      ∀ l ∈ emptyComposite.neuron_layers, l.id ≠ conn.to_layer) ∧
    (emptyComposite.pyCompile).2 ≠ .error (.valueError lookupErrorMsg) ∧
    (emptyComposite.pyCompile).2 = .error (.valueError configErrorMsg) := by
  refine ⟨⟨⟨"c0", 0, 1⟩, by simp [emptyComposite], by simp [emptyComposite]⟩, ?_, ?_⟩
  · decide
  · decide

/-- **C4 (amended)**: for every composite *with at least one neuron layer*
containing a connection whose `to_layer` is not a member of the
neuron-layer sequence, compiling raises the lookup (not-found) error at
compile time. -/
theorem compile_missing_to_layer_lookup_error (c : CompositeLayer)
    (h0 : c.neuron_layers ≠ [])
    (h : ∃ conn ∈ c.connections, ∀ l ∈ c.neuron_layers, l.id ≠ conn.to_layer) :
    (c.pyCompile).2 = .error (.valueError lookupErrorMsg) := by
  have hlen : c.neuron_layers.length ≠ 0 := by
    intro hh
    exact h0 (List.length_eq_zero.mp hh)
  have herr := connectionTosLoop_err 0 [] h
  rcases hloop : connectionTosLoop c.neuron_layers 0 c.connections [] with ⟨t0, r⟩
  rw [hloop] at herr
  cases r with
  | error e =>
    simp at herr
    subst herr
    simp [CompositeLayer.pyCompile, hlen, hloop]
  | ok tos => simp at herr

/-- Witness for `compile_missing_to_layer_lookup_error` at
`badTargetComposite`. -/
theorem compile_missing_to_layer_lookup_error_witness :
    badTargetComposite.neuron_layers ≠ [] ∧
    (∃ conn ∈ badTargetComposite.connections,
      ∀ l ∈ badTargetComposite.neuron_layers, l.id ≠ conn.to_layer) ∧
    (badTargetComposite.pyCompile).2 = .error (.valueError lookupErrorMsg) := by
  have h0 : badTargetComposite.neuron_layers ≠ [] := by simp [badTargetComposite]
  have h : ∃ conn ∈ badTargetComposite.connections,
      ∀ l ∈ badTargetComposite.neuron_layers, l.id ≠ conn.to_layer :=
    ⟨⟨"c0", 0, 7⟩, by simp [badTargetComposite], by decide⟩
  exact ⟨h0, h, compile_missing_to_layer_lookup_error _ h0 h⟩

/-- **C5**: for every composite with at least one neuron layer, `input_n`
is the first neuron layer's `input_n`, `output_n` is the last neuron
layer's `output_n`, and a successful compile sets the composite's output
to the last neuron layer's output — regardless of connection topology. -/
theorem composite_delegates_to_first_last (c : CompositeLayer)
    (fl ll : NeuronLayer)
    (hfirst : c.neuron_layers.head? = some fl)
    (hlast : c.neuron_layers.getLast? = some ll) :
    c.pyInputN = some fl.input_n ∧
    c.pyOutputN = some ll.output_n ∧
    ∀ res : CompileResult, (c.pyCompile).2 = .ok res →
      res.output = Signal.layerOutput ll.id := by
  refine ⟨by simp [CompositeLayer.pyInputN, hfirst],
    by simp [CompositeLayer.pyOutputN, hlast], ?_⟩
  intro res hok
  obtain ⟨tos, hloop, hlen, htr, hres⟩ := pyCompile_ok_spec hok
  rw [hres]
  simp [List.getLastD_eq_getLast?, hlast]

/-- Witness for `composite_delegates_to_first_last` at `chainComposite`. -/
theorem composite_delegates_to_first_last_witness :
    chainComposite.neuron_layers.head? = some layerA ∧
    chainComposite.neuron_layers.getLast? = some layerB ∧
    (chainComposite.pyInputN = some layerA.input_n ∧
     chainComposite.pyOutputN = some layerB.output_n ∧
     ∀ res : CompileResult, (chainComposite.pyCompile).2 = .ok res →
       res.output = Signal.layerOutput layerB.id) :=
  ⟨rfl, rfl, composite_delegates_to_first_last chainComposite layerA layerB rfl rfl⟩

/-- **C6**: during compile, the composite's own input signal is delivered
via `add_input` exclusively to the first neuron layer: the trace contains
`add_input` of the composite input on layer 0, every `add_input` event
carrying the composite input targets position 0, the first layer's
compiled input list contains the composite input, and no other layer's
compiled input list does. -/
theorem input_routed_only_to_first_layer (c : CompositeLayer)
    (res : CompileResult) (hok : (c.pyCompile).2 = .ok res) :
    Event.addInput 0 Signal.compositeInput ∈ (c.pyCompile).1 ∧
    (∀ i : Nat, Event.addInput i Signal.compositeInput ∈ (c.pyCompile).1 → i = 0) ∧
    (∃ ins, res.layerInputs[0]? = some ins ∧ Signal.compositeInput ∈ ins) ∧
    (∀ i ins, res.layerInputs[i]? = some ins → Signal.compositeInput ∈ ins → i = 0) := by
  obtain ⟨tos, hloop, hlen, htr, hres⟩ := pyCompile_ok_spec hok
  have hsig : ∀ key s, s ∈ dictGet tos key → ∃ j, s = Signal.connOutput j := by
    intro key s hs
    rcases connectionTosLoop_signals hloop hs with hmem | hshape
    · simp [dictGet] at hmem
    · exact hshape
  refine ⟨?_, ?_, ?_, ?_⟩
  · rw [htr]
    exact List.mem_append_left _ (List.mem_append_left _ (List.mem_append_left _
      (List.mem_append_left _ (List.mem_append_right _ (List.mem_cons_self _ _)))))
  · intro i hmem
    rw [htr] at hmem
    rcases List.mem_append.mp hmem with h | h
    · rcases List.mem_append.mp h with h | h
      · rcases List.mem_append.mp h with h | h
        · rcases List.mem_append.mp h with h | h
          · rcases List.mem_append.mp h with h | h
            · obtain ⟨j, -, hj⟩ := List.mem_map.mp h
              exact absurd hj (by simp)
            · rcases List.mem_cons.mp h with h | h
              · simpa using h
              · obtain ⟨j, -, hj⟩ := List.mem_flatMap.mp h
                obtain ⟨s, hs, hmap⟩ := List.mem_map.mp hj
                obtain ⟨k, hk⟩ := hsig j s hs
                subst hk
                injection hmap with h1 h2
                exact Signal.noConfusion h2
          · obtain ⟨j, -, hj⟩ := List.mem_map.mp h
            exact absurd hj (by simp)
        · rcases List.mem_cons.mp h with h | h
          · exact absurd h (by simp)
          · rcases mem_connBindEvents h with ⟨j, s, hj⟩ | ⟨j, hj⟩ <;> simp at hj
      · obtain ⟨j, -, hj⟩ := List.mem_map.mp h
        exact absurd hj (by simp)
    · rcases List.mem_singleton.mp h with h
      exact absurd h (by simp)
  · refine ⟨[Signal.compositeInput] ++ dictGet tos 0, ?_, by simp⟩
    rw [hres]
    show (List.map _ (List.range c.neuron_layers.length))[0]? = _
    rw [List.getElem?_map, List.getElem?_range (Nat.pos_of_ne_zero hlen)]
    simp
  · intro i ins hins hcomp
    by_cases hi : i = 0
    · exact hi
    exfalso
    have hins2 : (List.map (fun i =>
        (if i = 0 then [Signal.compositeInput] else []) ++ dictGet tos i)
        (List.range c.neuron_layers.length))[i]? = some ins := by
      rw [hres] at hins
      exact hins
    rw [List.getElem?_map] at hins2
    rcases hrange : (List.range c.neuron_layers.length)[i]? with _ | j
    · rw [hrange] at hins2
      simp at hins2
    · rw [hrange] at hins2
      obtain ⟨hlt, helem⟩ := List.getElem?_eq_some.mp hrange
      rw [List.getElem_range] at helem
      subst helem
      simp only [Option.map_some'] at hins2
      have hins3 := Option.some.inj hins2
      rw [← hins3, if_neg hi] at hcomp
      simp only [List.nil_append] at hcomp
      obtain ⟨k, hk⟩ := hsig _ _ hcomp
      exact Signal.noConfusion hk

/-- **C1**: compile-pass ordering for a connection chain `A →conn→ B`:
the connection's output sub-node is constructed (and queued under its
`to_layer`'s index, hence included in `B`'s compiled input list) before
any neuron layer is compiled; the connection's input is bound to `A`'s
(`from_layer`'s) output; and the bind/compile of the connection happens
only after every neuron layer compile, after the data-dependency
barrier is entered. -/
theorem compile_chain_ordering (c : CompositeLayer) (ci to_i : Nat)
    (conn : ConnectionLayer) (res : CompileResult)
    (hci : c.connections[ci]? = some conn)
    (hto : pyListIndex c.neuron_layers conn.to_layer = .ok to_i)
    (hok : (c.pyCompile).2 = .ok res) :
    Event.compileOutputNode ci ∈ (c.pyCompile).1 ∧
    allBefore (c.pyCompile).1 (fun e => e == Event.compileOutputNode ci)
      Event.isCompileNeuronLayer ∧
    (∃ ins, res.layerInputs[to_i]? = some ins ∧ Signal.connOutput ci ∈ ins) ∧
    res.connInputs[ci]? = some (some (Signal.layerOutput conn.from_layer)) ∧
    Event.bindConnInput ci (Signal.layerOutput conn.from_layer) ∈ (c.pyCompile).1 ∧
    Event.compileConnection ci ∈ (c.pyCompile).1 ∧
    Event.barrierBegin ∈ (c.pyCompile).1 ∧
    allBefore (c.pyCompile).1 Event.isCompileNeuronLayer
      (fun e => e == Event.bindConnInput ci (Signal.layerOutput conn.from_layer)) ∧
    allBefore (c.pyCompile).1 Event.isCompileNeuronLayer
      (fun e => e == Event.compileConnection ci) ∧
    allBefore (c.pyCompile).1 (fun e => e == Event.barrierBegin)
      (fun e => e == Event.compileConnection ci) := by
  obtain ⟨tos, hloop, hlen, htr, hres⟩ := pyCompile_ok_spec hok
  have hcilt : ci < c.connections.length := by
    rcases List.getElem?_eq_some.mp hci with ⟨hlt, -⟩
    exact hlt
  have hbind := connBindEvents_mem 0 hci
  rw [Nat.zero_add] at hbind
  have hto_lt : to_i < c.neuron_layers.length := by
    unfold pyListIndex at hto
    rcases hfind : c.neuron_layers.findIdx? (fun l => l.id == conn.to_layer)
        with _ | j <;> rw [hfind] at hto <;> simp at hto
    subst hto
    exact (List.findIdx?_eq_some_iff_findIdx_eq.mp hfind).1
  refine ⟨?_, ?_, ?_, ?_, ?_, ?_, ?_, ?_, ?_, ?_⟩
  · rw [htr]
    refine List.mem_append_left _ (List.mem_append_left _ (List.mem_append_left _
      (List.mem_append_left _ (List.mem_append_left _ (List.mem_map.mpr
        ⟨ci, ?_, rfl⟩)))))
    simp [List.mem_range'_1]
    exact hcilt
  · refine ⟨(List.range' 0 c.connections.length).map Event.compileOutputNode ++
      (Event.addInput 0 Signal.compositeInput ::
        (List.range c.neuron_layers.length).flatMap
          (fun i => (dictGet tos i).map (Event.addInput i))),
      (List.range c.neuron_layers.length).map Event.compileNeuronLayer ++
        (Event.barrierBegin :: connBindEvents 0 c.connections) ++
        (List.range c.learning_rules.length).map Event.compileLearningRule ++
        [Event.setCompositeOutput
          (Signal.layerOutput (c.neuron_layers.getLastD default).id)],
      by rw [htr]; simp [List.append_assoc], ?_, ?_⟩
    · intro a ha
      rcases List.mem_append.mp ha with h | h
      · obtain ⟨j, -, rfl⟩ := List.mem_map.mp h
        rfl
      · rcases List.mem_cons.mp h with rfl | h
        · rfl
        · obtain ⟨j, -, hj⟩ := List.mem_flatMap.mp h
          obtain ⟨s, -, rfl⟩ := List.mem_map.mp hj
          rfl
    · intro b hb
      rcases List.mem_append.mp hb with h | h
      · rcases List.mem_append.mp h with h | h
        · rcases List.mem_append.mp h with h | h
          · obtain ⟨j, -, rfl⟩ := List.mem_map.mp h
            exact beq_false_of_ne (by simp)
          · rcases List.mem_cons.mp h with rfl | h
            · exact beq_false_of_ne (by simp)
            · rcases mem_connBindEvents h with ⟨j, s, rfl⟩ | ⟨j, rfl⟩ <;>
                exact beq_false_of_ne (by simp)
        · obtain ⟨j, -, rfl⟩ := List.mem_map.mp h
          exact beq_false_of_ne (by simp)
      · rcases List.mem_singleton.mp h with rfl
        exact beq_false_of_ne (by simp)
  · refine ⟨(if to_i = 0 then [Signal.compositeInput] else []) ++ dictGet tos to_i,
      ?_, ?_⟩
    · rw [hres]
      show (List.map _ (List.range c.neuron_layers.length))[to_i]? = _
      rw [List.getElem?_map, List.getElem?_range hto_lt]
      rfl
    · have hq := connectionTosLoop_mem hloop (k := ci) hci hto
      rw [Nat.zero_add] at hq
      exact List.mem_append_right _ hq
  · rw [hres]
    show (List.map _ c.connections)[ci]? = _
    rw [List.getElem?_map, hci]
    rfl
  · rw [htr]
    exact List.mem_append_left _ (List.mem_append_left _ (List.mem_append_right _
      (List.mem_cons_of_mem _ hbind.1)))
  · rw [htr]
    exact List.mem_append_left _ (List.mem_append_left _ (List.mem_append_right _
      (List.mem_cons_of_mem _ hbind.2)))
  · rw [htr]
    exact List.mem_append_left _ (List.mem_append_left _ (List.mem_append_right _
      (List.mem_cons_self _ _)))
  · refine ⟨(List.range' 0 c.connections.length).map Event.compileOutputNode ++
      (Event.addInput 0 Signal.compositeInput ::
        (List.range c.neuron_layers.length).flatMap
          (fun i => (dictGet tos i).map (Event.addInput i))) ++
      (List.range c.neuron_layers.length).map Event.compileNeuronLayer,
      (Event.barrierBegin :: connBindEvents 0 c.connections) ++
        (List.range c.learning_rules.length).map Event.compileLearningRule ++
        [Event.setCompositeOutput
          (Signal.layerOutput (c.neuron_layers.getLastD default).id)],
      by rw [htr]; simp [List.append_assoc], ?_, ?_⟩
    · intro a ha
      rcases List.mem_append.mp ha with h | h
      · rcases List.mem_append.mp h with h | h
        · obtain ⟨j, -, rfl⟩ := List.mem_map.mp h
          exact beq_false_of_ne (by simp)
        · rcases List.mem_cons.mp h with rfl | h
          · exact beq_false_of_ne (by simp)
          · obtain ⟨j, -, hj⟩ := List.mem_flatMap.mp h
            obtain ⟨s, -, rfl⟩ := List.mem_map.mp hj
            exact beq_false_of_ne (by simp)
      · obtain ⟨j, -, rfl⟩ := List.mem_map.mp h
        exact beq_false_of_ne (by simp)
    · intro b hb
      rcases List.mem_append.mp hb with h | h
      · rcases List.mem_append.mp h with h | h
        · rcases List.mem_cons.mp h with rfl | h
          · rfl
          · rcases mem_connBindEvents h with ⟨j, s, rfl⟩ | ⟨j, rfl⟩ <;> rfl
        · obtain ⟨j, -, rfl⟩ := List.mem_map.mp h
          rfl
      · rcases List.mem_singleton.mp h with rfl
        rfl
  · refine ⟨(List.range' 0 c.connections.length).map Event.compileOutputNode ++
      (Event.addInput 0 Signal.compositeInput ::
        (List.range c.neuron_layers.length).flatMap
          (fun i => (dictGet tos i).map (Event.addInput i))) ++
      (List.range c.neuron_layers.length).map Event.compileNeuronLayer,
      (Event.barrierBegin :: connBindEvents 0 c.connections) ++
        (List.range c.learning_rules.length).map Event.compileLearningRule ++
        [Event.setCompositeOutput
          (Signal.layerOutput (c.neuron_layers.getLastD default).id)],
      by rw [htr]; simp [List.append_assoc], ?_, ?_⟩
    · intro a ha
      rcases List.mem_append.mp ha with h | h
      · rcases List.mem_append.mp h with h | h
        · obtain ⟨j, -, rfl⟩ := List.mem_map.mp h
          exact beq_false_of_ne (by simp)
        · rcases List.mem_cons.mp h with rfl | h
          · exact beq_false_of_ne (by simp)
          · obtain ⟨j, -, hj⟩ := List.mem_flatMap.mp h
            obtain ⟨s, -, rfl⟩ := List.mem_map.mp hj
            exact beq_false_of_ne (by simp)
      · obtain ⟨j, -, rfl⟩ := List.mem_map.mp h
        exact beq_false_of_ne (by simp)
    · intro b hb
      rcases List.mem_append.mp hb with h | h
      · rcases List.mem_append.mp h with h | h
        · rcases List.mem_cons.mp h with rfl | h
          · rfl
          · rcases mem_connBindEvents h with ⟨j, s, rfl⟩ | ⟨j, rfl⟩ <;> rfl
        · obtain ⟨j, -, rfl⟩ := List.mem_map.mp h
          rfl
      · rcases List.mem_singleton.mp h with rfl
        rfl
  · refine ⟨(List.range' 0 c.connections.length).map Event.compileOutputNode ++
      (Event.addInput 0 Signal.compositeInput ::
        (List.range c.neuron_layers.length).flatMap
          (fun i => (dictGet tos i).map (Event.addInput i))) ++
      (List.range c.neuron_layers.length).map Event.compileNeuronLayer ++
      [Event.barrierBegin],
      connBindEvents 0 c.connections ++
        (List.range c.learning_rules.length).map Event.compileLearningRule ++
        [Event.setCompositeOutput
          (Signal.layerOutput (c.neuron_layers.getLastD default).id)],
      by rw [htr]; simp [List.append_assoc], ?_, ?_⟩
    · intro a ha
      rcases List.mem_append.mp ha with h | h
      · rcases List.mem_append.mp h with h | h
        · rcases List.mem_append.mp h with h | h
          · obtain ⟨j, -, rfl⟩ := List.mem_map.mp h
            exact beq_false_of_ne (by simp)
          · rcases List.mem_cons.mp h with rfl | h
            · exact beq_false_of_ne (by simp)
            · obtain ⟨j, -, hj⟩ := List.mem_flatMap.mp h
              obtain ⟨s, -, rfl⟩ := List.mem_map.mp hj
              exact beq_false_of_ne (by simp)
        · obtain ⟨j, -, rfl⟩ := List.mem_map.mp h
          exact beq_false_of_ne (by simp)
      · rcases List.mem_singleton.mp h with rfl
        exact beq_false_of_ne (by simp)
    · intro b hb
      rcases List.mem_append.mp hb with h | h
      · rcases List.mem_append.mp h with h | h
        · rcases mem_connBindEvents h with ⟨j, s, rfl⟩ | ⟨j, rfl⟩ <;>
            exact beq_false_of_ne (by simp)
        · obtain ⟨j, -, rfl⟩ := List.mem_map.mp h
          exact beq_false_of_ne (by simp)
      · rcases List.mem_singleton.mp h with rfl
        exact beq_false_of_ne (by simp)

/-- Witness for `input_routed_only_to_first_layer` at `chainComposite`. -/
theorem input_routed_only_to_first_layer_witness :
    (chainComposite.pyCompile).2 = .ok chainCompileResult ∧
    (Event.addInput 0 Signal.compositeInput ∈ (chainComposite.pyCompile).1 ∧
     (∀ i : Nat,
        Event.addInput i Signal.compositeInput ∈ (chainComposite.pyCompile).1 →
        i = 0) ∧
     (∃ ins, chainCompileResult.layerInputs[0]? = some ins ∧
        Signal.compositeInput ∈ ins) ∧
     (∀ i ins, chainCompileResult.layerInputs[i]? = some ins →
        Signal.compositeInput ∈ ins → i = 0)) :=
  ⟨by decide, input_routed_only_to_first_layer chainComposite chainCompileResult
    (by decide)⟩

/-- Witness for `compile_chain_ordering` at `chainComposite`, connection 0
(`A → B`, target index 1). -/
theorem compile_chain_ordering_witness :
    chainComposite.connections[0]? = some connectionAB ∧
    pyListIndex chainComposite.neuron_layers connectionAB.to_layer = .ok 1 ∧
    (chainComposite.pyCompile).2 = .ok chainCompileResult ∧
    (Event.compileOutputNode 0 ∈ (chainComposite.pyCompile).1 ∧
     allBefore (chainComposite.pyCompile).1 (fun e => e == Event.compileOutputNode 0)
       Event.isCompileNeuronLayer ∧
     (∃ ins, chainCompileResult.layerInputs[1]? = some ins ∧
        Signal.connOutput 0 ∈ ins) ∧
     chainCompileResult.connInputs[0]? =
       some (some (Signal.layerOutput connectionAB.from_layer)) ∧
     Event.bindConnInput 0 (Signal.layerOutput connectionAB.from_layer) ∈
       (chainComposite.pyCompile).1 ∧
     Event.compileConnection 0 ∈ (chainComposite.pyCompile).1 ∧
     Event.barrierBegin ∈ (chainComposite.pyCompile).1 ∧
     allBefore (chainComposite.pyCompile).1 Event.isCompileNeuronLayer
       (fun e => e == Event.bindConnInput 0
         (Signal.layerOutput connectionAB.from_layer)) ∧
     allBefore (chainComposite.pyCompile).1 Event.isCompileNeuronLayer
       (fun e => e == Event.compileConnection 0) ∧
     allBefore (chainComposite.pyCompile).1 (fun e => e == Event.barrierBegin)
       (fun e => e == Event.compileConnection 0)) :=
  ⟨by decide, by decide, by decide,
   compile_chain_ordering chainComposite 0 1 connectionAB chainCompileResult
     (by decide) (by decide) (by decide)⟩

/-! ### Lemmas about the run loops -/

/-- Under a never-failing engine and callback, the run loop's schedule is
exactly `pull j, eval j, callback j` for `j = i, i+1, ...`, once per
frame, and the loop ends normally. -/
theorem runTimeLoop_tags {V : Type} (e : Engine V) (keys : List String)
    (cb : Callback V)
    (hrun : ∀ v feed, ∃ p, e.run v feed = .ok p)
    (hcb : ∀ i v r, ∃ v2, cb i v r = .ok v2) :
    ∀ (frames : List Val) (i : Nat) (v : V),
      (runTimeLoop e keys cb i v frames).1.map RunEvent.tag =
        (List.range' i frames.length).flatMap
          (fun j => [StepTag.pullTag j, StepTag.evalTag j, StepTag.cbTag j]) ∧
      (runTimeLoop e keys cb i v frames).2 = .ok () := by
  intro frames
  induction frames with
  | nil => intro i v; simp [runTimeLoop]
  | cons d rest ih =>
    intro i v
    obtain ⟨⟨v2, out⟩, hr⟩ := hrun v (runTimeFeed d)
    obtain ⟨v3, hc⟩ := hcb i v2 (keys.map (fun k => (k, out k)))
    rcases hrec : runTimeLoop e keys cb (i + 1) v3 rest with ⟨t, r⟩
    have hih := ih (i + 1) v3
    rw [hrec] at hih
    constructor
    · simp only [runTimeLoop, hr, hc, hrec, List.length_cons, List.range'_succ]
      simp [RunEvent.tag, hih.1]
    · simp only [runTimeLoop, hr, hc, hrec]
      exact hih.2

theorem map_fst_pairing (keys : List String) (out : String → Val) :
    (keys.map (fun k => (k, out k))).map Prod.fst = keys := by
  induction keys with
  | nil => rfl
  | cons k ks ih => simp only [List.map_cons, ih]

/-- Every results mapping handed to the callback by the run loop has
exactly the runnable keys, in order. -/
theorem runTimeLoop_results_keys {V : Type} (e : Engine V) (keys : List String)
    (cb : Callback V) :
    ∀ (frames : List Val) (i : Nat) (v : V) (j : Nat)
      (res : List (String × Val)),
      RunEvent.callbackCall j res ∈ (runTimeLoop e keys cb i v frames).1 →
      res.map Prod.fst = keys := by
  intro frames
  induction frames with
  | nil => intro i v j res h; simp [runTimeLoop] at h
  | cons d rest ih =>
    intro i v j res h
    rcases hr : e.run v (runTimeFeed d) with msg | p
    · simp [runTimeLoop, hr] at h
    · obtain ⟨v2, out⟩ := p
      rcases hc : cb i v2 (keys.map (fun k => (k, out k))) with msg | v3
      · simp [runTimeLoop, hr, hc] at h
        rcases h with ⟨-, h⟩
        rw [h, map_fst_pairing]
      · rcases hrec : runTimeLoop e keys cb (i + 1) v3 rest with ⟨t, r⟩
        simp [runTimeLoop, hr, hc, hrec] at h
        rcases h with ⟨-, h⟩ | h
        · rw [h, map_fst_pairing]
        · exact ih (i + 1) v3 j res (by rw [hrec]; exact h)

/-- Under a never-failing engine and callback, the run loop evaluates
frame `j` with the feed `runTimeFeed frames[j]`. -/
theorem runTimeLoop_eval_mem {V : Type} (e : Engine V) (keys : List String)
    (cb : Callback V)
    (hrun : ∀ v feed, ∃ p, e.run v feed = .ok p)
    (hcb : ∀ i v r, ∃ v2, cb i v r = .ok v2) :
    ∀ (frames : List Val) (i : Nat) (v : V) (j : Nat) (d : Val),
      frames[j]? = some d →
      RunEvent.evalGraph (i + j) (runTimeFeed d) ∈
        (runTimeLoop e keys cb i v frames).1 := by
  intro frames
  induction frames with
  | nil => intro i v j d h; simp at h
  | cons d0 rest ih =>
    intro i v j d h
    obtain ⟨⟨v2, out⟩, hr⟩ := hrun v (runTimeFeed d0)
    obtain ⟨v3, hc⟩ := hcb i v2 (keys.map (fun k => (k, out k)))
    rcases hrec : runTimeLoop e keys cb (i + 1) v3 rest with ⟨t, r⟩
    simp only [runTimeLoop, hr, hc, hrec]
    cases j with
    | zero =>
      simp at h
      subst h
      simp
    | succ j' =>
      simp at h
      have := ih (i + 1) v3 j' d h
      rw [hrec] at this
      have harith : i + 1 + j' = i + (j' + 1) := by omega
      rw [harith] at this
      simp [this]

/-- The run-time loop emits only pull/eval/callback events: in particular
never an `initVariables` event. -/
theorem runTimeLoop_no_init {V : Type} (e : Engine V) (keys : List String)
    (cb : Callback V) :
    ∀ (frames : List Val) (i : Nat) (v : V) (ev : RunEvent),
      ev ∈ (runTimeLoop e keys cb i v frames).1 →
      RunEvent.isInitVars ev = false := by
  intro frames
  induction frames with
  | nil => intro i v ev h; simp [runTimeLoop] at h
  | cons d rest ih =>
    intro i v ev h
    rcases hr : e.run v (runTimeFeed d) with msg | p
    · simp [runTimeLoop, hr] at h
      rw [h]
      rfl
    · obtain ⟨v2, out⟩ := p
      rcases hc : cb i v2 (keys.map (fun k => (k, out k))) with msg | v3
      · simp [runTimeLoop, hr, hc] at h
        rcases h with h | h | h <;> rw [h] <;> rfl
      · rcases hrec : runTimeLoop e keys cb (i + 1) v3 rest with ⟨t, r⟩
        simp [runTimeLoop, hr, hc, hrec] at h
        rcases h with h | h | h | h
        · rw [h]; rfl
        · rw [h]; rfl
        · rw [h]; rfl
        · exact ih (i + 1) v3 ev (by rw [hrec]; exact h)

/-- The continue-run-time loop also never emits an `initVariables`
event. -/
theorem continueRunTimeLoop_no_init {V : Type} (e : Engine V)
    (keys : List String) (cb : Callback V) :
    ∀ (frames : List Val) (i : Nat) (v : V) (ev : RunEvent),
      ev ∈ (continueRunTimeLoop e keys cb i v frames).1 →
      RunEvent.isInitVars ev = false := by
  intro frames
  induction frames with
  | nil => intro i v ev h; simp [continueRunTimeLoop] at h
  | cons d rest ih =>
    intro i v ev h
    rcases hr : e.run v [(inputPlaceholderKey, d)] with msg | p
    · simp [continueRunTimeLoop, hr] at h
      rw [h]
      rfl
    · obtain ⟨v2, out⟩ := p
      rcases hc : cb i v2 (keys.map (fun k => (k, out k))) with msg | v3
      · simp [continueRunTimeLoop, hr, hc] at h
        rcases h with h | h | h <;> rw [h] <;> rfl
      · rcases hrec : continueRunTimeLoop e keys cb (i + 1) v3 rest with ⟨t, r⟩
        simp [continueRunTimeLoop, hr, hc, hrec] at h
        rcases h with h | h | h | h
        · rw [h]; rfl
        · rw [h]; rfl
        · rw [h]; rfl
        · exact ih (i + 1) v3 ev (by rw [hrec]; exact h)

/-- On frames none of which is a `Mapping`, the two loops coincide. -/
theorem loops_eq_of_no_mapping {V : Type} (e : Engine V) (keys : List String)
    (cb : Callback V) :
    ∀ (frames : List Val), (∀ d ∈ frames, d.isMapping = false) →
      ∀ (i : Nat) (v : V),
        runTimeLoop e keys cb i v frames =
          continueRunTimeLoop e keys cb i v frames := by
  intro frames
  induction frames with
  | nil => intro h i v; rfl
  | cons d rest ih =>
    intro h i v
    have hd : runTimeFeed d = [(inputPlaceholderKey, d)] := by
      cases d with
      | arr n => rfl
      | dict entries =>
        exact absurd (h _ (List.mem_cons_self _ _)) (by simp [Val.isMapping])
    have hrest := ih (fun x hx => h x (List.mem_cons_of_mem _ hx))
    simp only [runTimeLoop, continueRunTimeLoop, hd]
    simp only [hrest]

theorem mem_dedup_foldl :
    ∀ (l acc : List String) (nm : String), nm ∈ acc ∨ nm ∈ l →
      nm ∈ l.foldl (fun acc n => if acc.contains n then acc else acc ++ [n]) acc := by
  intro l
  induction l with
  | nil =>
    intro acc nm h
    rcases h with h | h
    · exact h
    · simp at h
  | cons x xs ih =>
    intro acc nm h
    simp only [List.foldl_cons]
    by_cases hc : acc.contains x
    · rw [if_pos hc]
      apply ih
      rcases h with h | h
      · exact .inl h
      · rcases List.mem_cons.mp h with rfl | h
        · exact .inl (by simpa using hc)
        · exact .inr h
    · rw [if_neg hc]
      apply ih
      rcases h with h | h
      · exact .inl (List.mem_append_left _ h)
      · rcases List.mem_cons.mp h with rfl | h
        · exact .inl (List.mem_append_right _ (List.mem_singleton.mpr rfl))
        · exact .inr h

/-- Every computation-layer name is a key of the `_ops` dictionary. -/
theorem mem_opsKeys_of_mem_opsNames {c : CompositeLayer} {nm : String}
    (h : nm ∈ c.opsNames) : nm ∈ c.opsKeys :=
  mem_dedup_foldl _ [] nm (.inr h)

/-! ### Claims about the run loop -/

/-- **C2**: for a data source yielding `N` frames and a never-failing
engine and callback, `run_time` opens the session, initializes
variables, then for each step `j = 0, ..., N-1` in order pulls frame
`j`, completes its graph evaluation, and invokes the callback — exactly
once per frame, each callback strictly after that frame's evaluation and
strictly before the next pull — then the loop ends normally when the
source is exhausted; every results mapping passed to the callback has
one entry per neuron-layer/connection/learning-rule name. -/
theorem run_time_callback_schedule {V : Type} (m : BPNNModel) (e : Engine V)
    (frames : List Val) (cb : Callback V) (vPrev : V)
    (hrun : ∀ v feed, ∃ p, e.run v feed = .ok p)
    (hcb : ∀ i v r, ∃ v2, cb i v r = .ok v2) :
    (m.run_time e frames cb vPrev).1.map RunEvent.tag =
      StepTag.openTag :: StepTag.initTag ::
        ((List.range frames.length).flatMap
          (fun j => [StepTag.pullTag j, StepTag.evalTag j, StepTag.cbTag j]) ++
         [StepTag.closeTag]) ∧
    (m.run_time e frames cb vPrev).2 = .ok () ∧
    (∀ j res, RunEvent.callbackCall j res ∈ (m.run_time e frames cb vPrev).1 →
      res.map Prod.fst = m.top.opsKeys ∧
      ∀ nm ∈ m.top.opsNames, nm ∈ res.map Prod.fst) := by
  rcases hl : runTimeLoop e m.top.opsKeys cb 0 e.initVals frames with ⟨t, r⟩
  have htags := runTimeLoop_tags e m.top.opsKeys cb hrun hcb frames 0 e.initVals
  rw [hl] at htags
  refine ⟨?_, ?_, ?_⟩
  · simp [BPNNModel.run_time, hl, RunEvent.tag, htags.1, List.range_eq_range']
  · simpa [BPNNModel.run_time, hl] using htags.2
  · intro j res hres
    have hmem : RunEvent.callbackCall j res ∈ t := by
      have hres' : RunEvent.callbackCall j res ∈
          RunEvent.openSession :: RunEvent.initVariables ::
            (t ++ [RunEvent.closeSession]) := by
        simpa [BPNNModel.run_time, hl] using hres
      rcases List.mem_cons.mp hres' with h | hres'
      · exact absurd h (by simp)
      rcases List.mem_cons.mp hres' with h | hres'
      · exact absurd h (by simp)
      rcases List.mem_append.mp hres' with h | h
      · exact h
      · exact absurd (List.mem_singleton.mp h) (by simp)
    have hkeys := runTimeLoop_results_keys e m.top.opsKeys cb frames 0 e.initVals
      j res (by rw [hl]; exact hmem)
    exact ⟨hkeys, fun nm hnm => hkeys ▸ mem_opsKeys_of_mem_opsNames hnm⟩

/-- Witness for `run_time_callback_schedule`: `chainModel` over three raw
frames with a counting engine and a non-raising callback. -/
theorem run_time_callback_schedule_witness :
    (∀ (v : Nat) feed, ∃ p, countingEngine.run v feed = Except.ok p) ∧
    (∀ (i v : Nat) r, ∃ v2, okCallback i v r = .ok v2) ∧
    ((chainModel.run_time countingEngine rawFrames okCallback 0).1.map
        RunEvent.tag =
      StepTag.openTag :: StepTag.initTag ::
        ((List.range rawFrames.length).flatMap
          (fun j => [StepTag.pullTag j, StepTag.evalTag j, StepTag.cbTag j]) ++
         [StepTag.closeTag]) ∧
     (chainModel.run_time countingEngine rawFrames okCallback 0).2 = .ok () ∧
     (∀ j res, RunEvent.callbackCall j res ∈
         (chainModel.run_time countingEngine rawFrames okCallback 0).1 →
       res.map Prod.fst = chainModel.top.opsKeys ∧
       ∀ nm ∈ chainModel.top.opsNames, nm ∈ res.map Prod.fst)) :=
  ⟨fun v _ => ⟨(v + 1, fun _ => Val.arr 0), rfl⟩,
   fun _ v _ => ⟨v, rfl⟩,
   run_time_callback_schedule chainModel countingEngine rawFrames okCallback 0
     (fun v _ => ⟨(v + 1, fun _ => Val.arr 0), rfl⟩)
     (fun _ v _ => ⟨v, rfl⟩)⟩

/-- **C7**: a frame that is itself a mapping is passed through verbatim as
the complete feed of that step's evaluation, bypassing the model's single
named input placeholder; any other frame is fed as the value of the
placeholder. -/
theorem run_time_feed_passthrough {V : Type} (m : BPNNModel) (e : Engine V)
    (frames : List Val) (cb : Callback V) (vPrev : V) (j : Nat) (d : Val)
    (hrun : ∀ v feed, ∃ p, e.run v feed = .ok p)
    (hcb : ∀ i v r, ∃ v2, cb i v r = .ok v2)
    (hj : frames[j]? = some d) :
    RunEvent.evalGraph j (runTimeFeed d) ∈ (m.run_time e frames cb vPrev).1 ∧
    (∀ entries, d = Val.dict entries → runTimeFeed d = entries) ∧
    (d.isMapping = false → runTimeFeed d = [(inputPlaceholderKey, d)]) := by
  rcases hl : runTimeLoop e m.top.opsKeys cb 0 e.initVals frames with ⟨t, r⟩
  have hmem := runTimeLoop_eval_mem e m.top.opsKeys cb hrun hcb frames 0
    e.initVals j d hj
  rw [hl, Nat.zero_add] at hmem
  refine ⟨?_, ?_, ?_⟩
  · simp only [BPNNModel.run_time, hl]
    exact List.mem_cons_of_mem _ (List.mem_cons_of_mem _
      (List.mem_append_left _ hmem))
  · intro entries hd
    subst hd
    rfl
  · intro hnm
    cases d with
    | arr n => rfl
    | dict entries => simp [Val.isMapping] at hnm

/-- Witness for `run_time_feed_passthrough`: the second frame of
`mixedFrames` is a full feed mapping. -/
theorem run_time_feed_passthrough_witness :
    (∀ (v : Nat) feed, ∃ p, countingEngine.run v feed = Except.ok p) ∧
    (∀ (i v : Nat) r, ∃ v2, okCallback i v r = .ok v2) ∧
    mixedFrames[1]? = some (Val.dict [("W", Val.arr 3)]) ∧
    (RunEvent.evalGraph 1 (runTimeFeed (Val.dict [("W", Val.arr 3)])) ∈
       (chainModel.run_time countingEngine mixedFrames okCallback 0).1 ∧
     (∀ entries, Val.dict [("W", Val.arr 3)] = Val.dict entries →
        runTimeFeed (Val.dict [("W", Val.arr 3)]) = entries) ∧
     ((Val.dict [("W", Val.arr 3)]).isMapping = false →
        runTimeFeed (Val.dict [("W", Val.arr 3)]) =
          [(inputPlaceholderKey, Val.dict [("W", Val.arr 3)])])) :=
  ⟨fun v _ => ⟨(v + 1, fun _ => Val.arr 0), rfl⟩,
   fun _ v _ => ⟨v, rfl⟩,
   rfl,
   run_time_feed_passthrough chainModel countingEngine mixedFrames okCallback 0
     1 (Val.dict [("W", Val.arr 3)])
     (fun v _ => ⟨(v + 1, fun _ => Val.arr 0), rfl⟩)
     (fun _ v _ => ⟨v, rfl⟩) rfl⟩

/-- **C8**: the session opened by `run_time` (and `continue_run_time`) is
released on every exit path — the trace always ends with the session
release — and the loop's outcome (normal or exceptional, whether the
exception came from graph evaluation or from the callback) passes
through to the caller unchanged. -/
theorem run_time_session_released {V : Type} (m : BPNNModel) (e : Engine V)
    (frames : List Val) (cb : Callback V) (vPrev : V) :
    (m.run_time e frames cb vPrev).1.getLast? = some RunEvent.closeSession ∧
    (m.run_time e frames cb vPrev).2 =
      (runTimeLoop e m.top.opsKeys cb 0 e.initVals frames).2 ∧
    (m.continue_run_time e frames cb vPrev).1.getLast? =
      some RunEvent.closeSession ∧
    (m.continue_run_time e frames cb vPrev).2 =
      (continueRunTimeLoop e m.top.opsKeys cb 0 e.initVals frames).2 ∧
    (∀ msg, (runTimeLoop e m.top.opsKeys cb 0 e.initVals frames).2 = .error msg →
      (m.run_time e frames cb vPrev).2 = .error msg) ∧
    (∀ msg, (continueRunTimeLoop e m.top.opsKeys cb 0 e.initVals frames).2 =
        .error msg →
      (m.continue_run_time e frames cb vPrev).2 = .error msg) := by
  rcases hl : runTimeLoop e m.top.opsKeys cb 0 e.initVals frames with ⟨t, r⟩
  rcases hl2 : continueRunTimeLoop e m.top.opsKeys cb 0 e.initVals frames
    with ⟨t2, r2⟩
  have hshape : RunEvent.openSession :: RunEvent.initVariables ::
      (t ++ [RunEvent.closeSession]) =
      (RunEvent.openSession :: RunEvent.initVariables :: t) ++
        [RunEvent.closeSession] := by simp
  have hshape2 : RunEvent.openSession :: RunEvent.initVariables ::
      (t2 ++ [RunEvent.closeSession]) =
      (RunEvent.openSession :: RunEvent.initVariables :: t2) ++
        [RunEvent.closeSession] := by simp
  refine ⟨?_, ?_, ?_, ?_, ?_, ?_⟩
  · simp only [BPNNModel.run_time, hl, hshape]
    exact List.getLast?_concat _
  · simp [BPNNModel.run_time, hl]
  · simp only [BPNNModel.continue_run_time, hl2, hshape2]
    exact List.getLast?_concat _
  · simp [BPNNModel.continue_run_time, hl2]
  · intro msg hmsg
    simp only [BPNNModel.run_time, hl]
    exact hmsg
  · intro msg hmsg
    simp only [BPNNModel.continue_run_time, hl2]
    exact hmsg

/-- Witness for `run_time_session_released`: a raising engine and a
raising callback both leave the trace ending in the session release
while their exception surfaces. -/
theorem run_time_session_released_witness :
    ((runTimeLoop failingEngine chainModel.top.opsKeys okCallback 0
        failingEngine.initVals rawFrames).2 = .error "shape mismatch" ∧
     (chainModel.run_time failingEngine rawFrames okCallback 0).2 =
       .error "shape mismatch" ∧
     (chainModel.run_time failingEngine rawFrames okCallback 0).1.getLast? =
       some RunEvent.closeSession) ∧
    ((runTimeLoop countingEngine chainModel.top.opsKeys raisingCallback 0
        countingEngine.initVals rawFrames).2 = .error "user error" ∧
     (chainModel.run_time countingEngine rawFrames raisingCallback 0).2 =
       .error "user error" ∧
     (chainModel.run_time countingEngine rawFrames raisingCallback 0).1.getLast? =
       some RunEvent.closeSession) :=
  ⟨⟨rfl,
    (run_time_session_released chainModel failingEngine rawFrames okCallback
      0).2.2.2.2.1 "shape mismatch" rfl,
    (run_time_session_released chainModel failingEngine rawFrames okCallback
      0).1⟩,
   ⟨rfl,
    (run_time_session_released chainModel countingEngine rawFrames
      raisingCallback 0).2.2.2.2.1 "user error" rfl,
    (run_time_session_released chainModel countingEngine rawFrames
      raisingCallback 0).1⟩⟩

/-- **C9**: on every data source whose frames are not mappings,
`continue_run_time` behaves identically to `run_time`: same events (in
particular the same evaluations and callback invocations with the same
arguments) and same outcome. -/
theorem continue_run_time_refines_run_time {V : Type} (m : BPNNModel)
    (e : Engine V) (frames : List Val) (cb : Callback V) (vPrev : V)
    (h : ∀ d ∈ frames, d.isMapping = false) :
    m.run_time e frames cb vPrev = m.continue_run_time e frames cb vPrev := by
  simp only [BPNNModel.run_time, BPNNModel.continue_run_time]
  rw [loops_eq_of_no_mapping e m.top.opsKeys cb frames h 0 e.initVals]

/-- Witness for `continue_run_time_refines_run_time` on two raw frames. -/
theorem continue_run_time_refines_run_time_witness :
    (∀ d ∈ rawFrames, d.isMapping = false) ∧
    chainModel.run_time countingEngine rawFrames okCallback 0 =
      chainModel.continue_run_time countingEngine rawFrames okCallback 0 :=
  ⟨by decide,
   continue_run_time_refines_run_time chainModel countingEngine rawFrames
     okCallback 0 (by decide)⟩

/-- **C10**: every `run_time`/`continue_run_time` invocation runs the
global variable initializer immediately after opening its session
(positions 0 and 1 of the trace) and before any frame is pulled, and its
behavior is independent of any variable state carried over from previous
runs (such as weight updates a previous run's `learn` applied). -/
theorem run_time_reinitializes_variables {V : Type} (m : BPNNModel)
    (e : Engine V) (frames : List Val) (cb : Callback V) (v0 v1 : V) :
    m.run_time e frames cb v0 = m.run_time e frames cb v1 ∧
    m.continue_run_time e frames cb v0 = m.continue_run_time e frames cb v1 ∧
    (m.run_time e frames cb v0).1.take 2 =
      [RunEvent.openSession, RunEvent.initVariables] ∧
    (m.continue_run_time e frames cb v0).1.take 2 =
      [RunEvent.openSession, RunEvent.initVariables] ∧
    allBefore (m.run_time e frames cb v0).1 RunEvent.isInitVars
      RunEvent.isPull ∧
    allBefore (m.continue_run_time e frames cb v0).1 RunEvent.isInitVars
      RunEvent.isPull := by
  rcases hl : runTimeLoop e m.top.opsKeys cb 0 e.initVals frames with ⟨t, r⟩
  rcases hl2 : continueRunTimeLoop e m.top.opsKeys cb 0 e.initVals frames
    with ⟨t2, r2⟩
  refine ⟨rfl, rfl, by simp [BPNNModel.run_time, hl],
    by simp [BPNNModel.continue_run_time, hl2], ?_, ?_⟩
  · refine ⟨[RunEvent.openSession, RunEvent.initVariables],
      t ++ [RunEvent.closeSession], by simp [BPNNModel.run_time, hl], ?_, ?_⟩
    · intro a ha
      rcases List.mem_cons.mp ha with rfl | ha
      · rfl
      · rcases List.mem_singleton.mp ha with rfl
        rfl
    · intro b hb
      rcases List.mem_append.mp hb with h | h
      · exact runTimeLoop_no_init e m.top.opsKeys cb frames 0 e.initVals b
          (by rw [hl]; exact h)
      · rcases List.mem_singleton.mp h with rfl
        rfl
  · refine ⟨[RunEvent.openSession, RunEvent.initVariables],
      t2 ++ [RunEvent.closeSession],
      by simp [BPNNModel.continue_run_time, hl2], ?_, ?_⟩
    · intro a ha
      rcases List.mem_cons.mp ha with rfl | ha
      · rfl
      · rcases List.mem_singleton.mp ha with rfl
        rfl
    · intro b hb
      rcases List.mem_append.mp hb with h | h
      · exact continueRunTimeLoop_no_init e m.top.opsKeys cb frames 0
          e.initVals b (by rw [hl2]; exact h)
      · rcases List.mem_singleton.mp h with rfl
        rfl

end Spikeflow
